import Mathlib

/-!
Shallow embedding of the function-boundary repair heuristic of
`ida_kernelcache/ida_utilities.py` (`force_function`,
`_convert_address_to_function`, `_fix_unrecognized_function_insns`,
`is_function_start`).

The external analysis database is modelled as a state (a list of functions,
each owning a list of contiguous chunks) together with an adversarial
oracle supplying the opaque parts of the engine's behaviour: whether
`find_func_end` resolves, the `end_ea` produced by `find_func_bounds`,
item ends, and the success/failure and extent of `create_insn`,
`remove_fchunk`, `add_func` and `del_func`.  Successful mutating calls
have their natural effect on the state (a successful `add_func a` inserts
a function whose entry chunk starts at `a`, a successful `del_func a`
removes the functions owning `a`, a successful `remove_fchunk a a`
removes from the owners of `a` the chunks containing `a`); failed calls
leave the state unchanged.  Every call is recorded in a trace and advances
a clock that indexes the oracle, so a single oracle value ranges over
every possible sequence of engine responses.

The recovery loop of `_fix_unrecognized_function_insns` is a `while` loop
with no iteration bound in the source, so it is embedded with explicit
fuel; `none` means the loop has not finished within the given fuel.
-/

set_option maxRecDepth 4000

def BADADDR : Nat := 2 ^ 64 - 1

structure Chunk where
  s : Nat
  e : Nat
deriving DecidableEq

def Chunk.contains (c : Chunk) (a : Nat) : Bool :=
  decide (c.s ≤ a) && decide (a < c.e)

structure Func where
  entry : Nat
  chunks : List Chunk
deriving DecidableEq

def Func.owns (f : Func) (a : Nat) : Bool :=
  f.chunks.any (fun c => c.contains a)

structure DBState where
  funcs : List Func
deriving DecidableEq

/-- Calls into the analysis database, recorded in the trace. -/
inductive Call where
  | first_func_chunk (a : Nat)
  | find_func_end (a : Nat)
  | find_func_bounds (a : Nat)
  | get_item_end (a : Nat)
  | del_items (a : Nat)
  | create_insn (a : Nat)
  | remove_fchunk (fa a : Nat)
  | add_func (a : Nat)
  | del_func (a : Nat)
  | list_chunks (a : Nat)
  | get_func (a : Nat)
  | get_func_attr_start (a : Nat)
deriving DecidableEq

/-- Oracle supplying the opaque engine responses, indexed by the call clock. -/
structure Oracle where
  find_func_end : Nat → Nat → Nat
  find_func_bounds : Nat → Nat → Nat
  get_item_end : Nat → Nat → Nat
  create_insn_ok : Nat → Nat → Bool
  remove_fchunk_ok : Nat → Nat → Bool
  add_func_ok : Nat → Nat → Bool
  add_func_size : Nat → Nat → Nat
  add_func_extra : Nat → Nat → List Chunk
  del_func_ok : Nat → Nat → Bool

structure S where
  db : DBState
  time : Nat
  trace : List Call
deriving DecidableEq

def tick (s : S) (c : Call) : S :=
  { db := s.db, time := s.time + 1, trace := c :: s.trace }

def ownerOf (db : DBState) (a : Nat) : Option Func :=
  db.funcs.find? (fun f => f.owns a)

/-- `idc.first_func_chunk(a)`: start of the first chunk of the function
containing `a`, `BADADDR` when there is none. -/
def firstFuncChunkQ (db : DBState) (a : Nat) : Nat :=
  match ownerOf db a with
  | some f =>
    match f.chunks.head? with
    | some c => c.s
    | none => BADADDR
  | none => BADADDR

/-- `idautils.Chunks(a)`: the chunk ranges of the function containing `a`. -/
def chunksQ (db : DBState) (a : Nat) : List (Nat × Nat) :=
  match ownerOf db a with
  | some f => f.chunks.map (fun c => (c.s, c.e))
  | none => []

/-- `idc.get_func_attr(a, FUNCATTR_START) == a`: some function owns `a`
and has entry `a`. -/
def isFuncStartQ (db : DBState) (a : Nat) : Bool :=
  db.funcs.any (fun f => f.owns a && f.entry == a)

/-- Effect of a successful `remove_fchunk a a`: the owners of `a` lose the
chunks containing `a`. -/
def removeChunkEff (db : DBState) (a : Nat) : DBState :=
  { funcs := db.funcs.map (fun f =>
      if f.owns a then
        { entry := f.entry, chunks := f.chunks.filter (fun c => !c.contains a) }
      else f) }

/-- The function created by a successful `add_func a`: its entry chunk
starts at `a`; its extent is chosen by the engine (the oracle). -/
def newFunc (o : Oracle) (t : Nat) (a : Nat) : Func :=
  { entry := a, chunks := Chunk.mk a (a + 1 + o.add_func_size t a) :: o.add_func_extra t a }

def addFuncEff (o : Oracle) (t : Nat) (db : DBState) (a : Nat) : DBState :=
  { funcs := newFunc o t a :: db.funcs }

/-- Effect of a successful `del_func a`: the functions owning `a` are removed. -/
def delFuncEff (db : DBState) (a : Nat) : DBState :=
  { funcs := db.funcs.filter (fun f => !f.owns a) }

def first_func_chunkC (s : S) (a : Nat) : Nat × S :=
  (firstFuncChunkQ s.db a, tick s (Call.first_func_chunk a))

def find_func_endC (o : Oracle) (s : S) (a : Nat) : Nat × S :=
  (o.find_func_end s.time a, tick s (Call.find_func_end a))

def find_func_boundsC (o : Oracle) (s : S) (a : Nat) : Nat × S :=
  (o.find_func_bounds s.time a, tick s (Call.find_func_bounds a))

def get_item_endC (o : Oracle) (s : S) (a : Nat) : Nat × S :=
  (o.get_item_end s.time a, tick s (Call.get_item_end a))

def del_itemsC (s : S) (a : Nat) : S :=
  tick s (Call.del_items a)

def create_insnC (o : Oracle) (s : S) (a : Nat) : Bool × S :=
  (o.create_insn_ok s.time a, tick s (Call.create_insn a))

def remove_fchunkC (o : Oracle) (s : S) (fa a : Nat) : Bool × S :=
  let ok := o.remove_fchunk_ok s.time a
  (ok, { db := if ok then removeChunkEff s.db a else s.db, time := s.time + 1,
         trace := Call.remove_fchunk fa a :: s.trace })

def add_funcC (o : Oracle) (s : S) (a : Nat) : Bool × S :=
  let ok := o.add_func_ok s.time a
  (ok, { db := if ok then addFuncEff o s.time s.db a else s.db, time := s.time + 1,
         trace := Call.add_func a :: s.trace })

def del_funcC (o : Oracle) (s : S) (a : Nat) : Bool × S :=
  let ok := o.del_func_ok s.time a
  (ok, { db := if ok then delFuncEff s.db a else s.db, time := s.time + 1,
         trace := Call.del_func a :: s.trace })

def list_chunksC (s : S) (a : Nat) : List (Nat × Nat) × S :=
  (chunksQ s.db a, tick s (Call.list_chunks a))

def get_funcC (s : S) (a : Nat) : Bool × S :=
  ((ownerOf s.db a).isSome, tick s (Call.get_func a))

/-- `is_function_start(ea)` of the source, as a database call. -/
def is_function_start (s : S) (a : Nat) : Bool × S :=
  (isFuncStartQ s.db a, tick s (Call.get_func_attr_start a))

/-- `_fix_unrecognized_function_insns`, with fuel for the unbounded
`while idc.find_func_end(func) == idc.BADADDR` loop. -/
def fix_unrecognized_function_insns (o : Oracle) (a : Nat) : Nat → S → Option (Bool × S)
  | 0, _ => none
  | fuel + 1, s =>
    let r1 := find_func_endC o s a
    if r1.1 = BADADDR then
      let r2 := find_func_boundsC o r1.2 a
      if r2.1 = 0 then some (false, r2.2)
      else
        let r3 := get_item_endC o r2.2 r2.1
        let s4 := del_itemsC r3.2 r2.1
        let r5 := create_insnC o s4 r2.1
        if r5.1 = false then some (false, r5.2)
        else fix_unrecognized_function_insns o a fuel r5.2
    else some (true, r1.2)

/-- The `for i in range(1024): if not idc.remove_fchunk(func, func): break`
loop of `_convert_address_to_function`. -/
def detachLoop (o : Oracle) (a : Nat) : Nat → S → S
  | 0, s => s
  | n + 1, s =>
    let r := remove_fchunkC o s a a
    if r.1 then detachLoop o a n r.2 else r.2

/-- `all(idaapi.get_func(start) for start, end in chunks)`, with the
generator's short-circuit call behaviour. -/
def verifyChunks : S → List (Nat × Nat) → Bool × S
  | s, [] => (true, s)
  | s, (st, _) :: rest =>
    let r := get_funcC s st
    if r.1 then verifyChunks r.2 rest else (false, r.2)

/-- The rollback loop: `for start, _ in chunks: ida_funcs.del_func(start)`. -/
def rollbackDels (o : Oracle) (starts : List Nat) (s : S) : S :=
  starts.foldl (fun st x => (del_funcC o st x).2) s

/-- The final `if orig != idc.BADADDR: ida_funcs.add_func(orig)` restore. -/
def restoreOrig (o : Oracle) (s : S) (orig : Nat) : S :=
  if orig ≠ BADADDR then (add_funcC o s orig).2 else s

/-- The stubborn-chunk block of `_convert_address_to_function`: snapshot
the chunks, delete the original function, recreate at `a` and at `orig`,
verify, roll back on failure, and in every failing case attempt the final
restore of `orig`. -/
def destructiveStage (o : Oracle) (s4 : S) (a orig : Nat) : Bool × S :=
  if orig ≠ BADADDR then
    let rc := list_chunksC s4 orig
    let rd := del_funcC o rc.2 orig
    if rd.1 then
      let ra2 := add_funcC o rd.2 a
      if ra2.1 then
        let ra3 := add_funcC o ra2.2 orig
        if ra3.1 then
          let rv := verifyChunks ra3.2 rc.1
          if rv.1 then (true, rv.2)
          else (false, restoreOrig o (rollbackDels o (rc.1.map Prod.fst) rv.2) orig)
        else (false, restoreOrig o (rollbackDels o (rc.1.map Prod.fst) ra3.2) orig)
      else (false, restoreOrig o (rollbackDels o (rc.1.map Prod.fst) ra2.2) orig)
    else (false, restoreOrig o rd.2 orig)
  else (false, restoreOrig o s4 orig)

/-- `ida_funcs.add_func(func)` and everything after it in
`_convert_address_to_function`. -/
def createStage (o : Oracle) (s3 : S) (a orig : Nat) : Bool × S :=
  let r := add_funcC o s3 a
  if r.1 then (true, r.2) else destructiveStage o r.2 a orig

/-- `_convert_address_to_function`.  `none` means the unbounded recovery
loop did not finish within the fuel. -/
def convert_address_to_function (o : Oracle) (fuel : Nat) (s : S) (a : Nat) :
    Option (Bool × S) :=
  let r1 := first_func_chunkC s a
  let r2 := find_func_endC o r1.2 a
  if r2.1 = BADADDR then
    (fix_unrecognized_function_insns o a fuel r2.2).map (fun p => createStage o p.2 a r1.1)
  else
    some (createStage o (detachLoop o a 1024 r2.2) a r1.1)

/-- `force_function`. -/
def force_function (o : Oracle) (fuel : Nat) (s : S) (a : Nat) : Option (Bool × S) :=
  let r := is_function_start s a
  if r.1 then some (true, r.2) else convert_address_to_function o fuel r.2 a

/-- State after the fix-or-detach prelude of `_convert_address_to_function`. -/
def preludeState (o : Oracle) (fuel : Nat) (s : S) (a : Nat) : Option S :=
  let r1 := first_func_chunkC s a
  let r2 := find_func_endC o r1.2 a
  if r2.1 = BADADDR then (fix_unrecognized_function_insns o a fuel r2.2).map Prod.snd
  else some (detachLoop o a 1024 r2.2)

/-! Spec-side notions: owned address sets and well-formedness of the
database state (nonempty in-range chunks, pairwise disjoint functions),
the invariant the spec attributes to the external engine. -/

def Chunk.addrs (c : Chunk) : Finset Nat := Finset.Ico c.s c.e

def Func.addrs (f : Func) : Finset Nat :=
  f.chunks.foldr (fun c acc => c.addrs ∪ acc) ∅

def ownedAddrsL : List Func → Finset Nat
  | [] => ∅
  | f :: rest => f.addrs ∪ ownedAddrsL rest

/-- The set of addresses owned by some function. -/
def ownedAddrs (db : DBState) : Finset Nat := ownedAddrsL db.funcs

def chunksDisjoint (c d : Chunk) : Prop := c.e ≤ d.s ∨ d.e ≤ c.s

def funcsDisjoint (f g : Func) : Prop :=
  ∀ c ∈ f.chunks, ∀ d ∈ g.chunks, chunksDisjoint c d

/-- Well-formed database: chunks are nonempty, lie below `BADADDR`, and
distinct functions own disjoint address ranges. -/
def WF (db : DBState) : Prop :=
  (∀ f ∈ db.funcs, ∀ c ∈ f.chunks, c.s < c.e ∧ c.e < BADADDR) ∧
  db.funcs.Pairwise funcsDisjoint

/-- Addresses of the function owning `a`, the bound for rollback damage. -/
def origAddrs (db : DBState) (a : Nat) : Finset Nat :=
  match ownerOf db a with
  | some f => f.addrs
  | none => ∅

/-- Calls that mutate the analysis database. -/
def Call.mutating : Call → Bool
  | Call.del_items _ => true
  | Call.create_insn _ => true
  | Call.remove_fchunk _ _ => true
  | Call.add_func _ => true
  | Call.del_func _ => true
  | _ => false

instance (c d : Chunk) : Decidable (chunksDisjoint c d) := by
  unfold chunksDisjoint; infer_instance

instance (f g : Func) : Decidable (funcsDisjoint f g) := by
  unfold funcsDisjoint; infer_instance

instance (db : DBState) : Decidable (WF db) := by
  unfold WF; infer_instance

/-! Basic lemmas about ownership and well-formedness. -/

theorem contains_iff_mem_addrs {c : Chunk} {x : Nat} :
    c.contains x = true ↔ x ∈ c.addrs := by
  simp [Chunk.contains, Chunk.addrs, Finset.mem_Ico]

theorem anyContains_iff {x : Nat} : ∀ {l : List Chunk},
    (l.any (fun c => c.contains x) = true) ↔
      x ∈ l.foldr (fun c acc => c.addrs ∪ acc) ∅
  | [] => by simp
  | c :: rest => by
    simp [List.any_cons, contains_iff_mem_addrs, anyContains_iff (l := rest)]

theorem owns_iff_mem_addrs {f : Func} {x : Nat} :
    f.owns x = true ↔ x ∈ f.addrs := by
  unfold Func.owns Func.addrs
  exact anyContains_iff

theorem mem_ownedAddrsL {x : Nat} : ∀ {l : List Func},
    x ∈ ownedAddrsL l ↔ ∃ f, f ∈ l ∧ f.owns x = true
  | [] => by simp [ownedAddrsL]
  | f :: rest => by
    simp [ownedAddrsL, owns_iff_mem_addrs, mem_ownedAddrsL (l := rest)]

theorem mem_ownedAddrs {db : DBState} {x : Nat} :
    x ∈ ownedAddrs db ↔ ∃ f, f ∈ db.funcs ∧ f.owns x = true :=
  mem_ownedAddrsL

theorem funcsDisjoint_symm : Symmetric funcsDisjoint := by
  intro f g h c hc d hd
  rcases h d hd c hc with h1 | h1
  · exact Or.inr h1
  · exact Or.inl h1

theorem not_owns_of_disjoint {f g : Func} {x : Nat}
    (h : funcsDisjoint f g) (hf : f.owns x = true) : g.owns x = false := by
  rcases List.any_eq_true.mp hf with ⟨c, hc, hcx⟩
  by_contra hg
  rcases List.any_eq_true.mp (Bool.not_eq_false _ ▸ hg) with ⟨d, hd, hdx⟩
  have h1 := contains_iff_mem_addrs.mp hcx
  have h2 := contains_iff_mem_addrs.mp hdx
  simp [Chunk.addrs, Finset.mem_Ico] at h1 h2
  rcases h c hc d hd with h3 | h3 <;> omega

/-- In a well-formed state an address is owned by at most one function. -/
theorem WF.owner_unique {db : DBState} (h : WF db) {f g : Func} {x : Nat}
    (hf : f ∈ db.funcs) (hg : g ∈ db.funcs)
    (hfx : f.owns x = true) (hgx : g.owns x = true) : f = g := by
  by_contra hne
  have hd := h.2.forall funcsDisjoint_symm hf hg hne
  have := not_owns_of_disjoint hd hfx
  rw [this] at hgx
  exact Bool.false_ne_true hgx

theorem ownerOf_mem {db : DBState} {a : Nat} {f : Func}
    (h : ownerOf db a = some f) : f ∈ db.funcs ∧ f.owns a = true := by
  unfold ownerOf at h
  have h2 := @List.find?_some Func (fun g => g.owns a) f db.funcs h
  exact ⟨List.mem_of_find?_eq_some h, h2⟩

theorem ownerOf_eq_none {db : DBState} {a : Nat}
    (h : ownerOf db a = none) : ∀ f ∈ db.funcs, f.owns a = false := by
  unfold ownerOf at h
  intro f hf
  have := List.find?_eq_none.mp h f hf
  simpa using this

/-! Preservation lemmas for the individual stages of the repair. -/

def Call.isRemove : Call → Bool
  | Call.remove_fchunk _ _ => true
  | _ => false

def Call.isDelFunc : Call → Bool
  | Call.del_func _ => true
  | _ => false

theorem fix_db {o : Oracle} {a : Nat} : ∀ (fuel : Nat) (s : S) (p : Bool × S),
    fix_unrecognized_function_insns o a fuel s = some p → p.2.db = s.db := by
  intro fuel
  induction fuel with
  | zero => intro s p h; simp [fix_unrecognized_function_insns] at h
  | succ n ih =>
    intro s p h
    rw [fix_unrecognized_function_insns] at h
    simp only [find_func_endC, find_func_boundsC, get_item_endC, del_itemsC,
      create_insnC, tick] at h
    split at h
    · split at h
      · cases h; rfl
      · split at h
        · cases h; rfl
        · have h2 := ih _ _ h
          exact h2
    · cases h; rfl

theorem fix_new_calls {o : Oracle} {a : Nat} : ∀ (fuel : Nat) (s : S) (p : Bool × S),
    fix_unrecognized_function_insns o a fuel s = some p →
    ∀ c ∈ p.2.trace, c ∈ s.trace ∨ (c.isRemove = false ∧ c.isDelFunc = false) := by
  intro fuel
  induction fuel with
  | zero => intro s p h; simp [fix_unrecognized_function_insns] at h
  | succ n ih =>
    intro s p h c hc
    rw [fix_unrecognized_function_insns] at h
    simp only [find_func_endC, find_func_boundsC, get_item_endC, del_itemsC,
      create_insnC, tick] at h
    split at h
    · split at h
      · cases h
        simp only [List.mem_cons] at hc
        rcases hc with rfl | rfl | hc
        · exact Or.inr ⟨rfl, rfl⟩
        · exact Or.inr ⟨rfl, rfl⟩
        · exact Or.inl hc
      · split at h
        · cases h
          simp only [List.mem_cons] at hc
          rcases hc with rfl | rfl | rfl | rfl | rfl | hc
          · exact Or.inr ⟨rfl, rfl⟩
          · exact Or.inr ⟨rfl, rfl⟩
          · exact Or.inr ⟨rfl, rfl⟩
          · exact Or.inr ⟨rfl, rfl⟩
          · exact Or.inr ⟨rfl, rfl⟩
          · exact Or.inl hc
        · rcases ih _ _ h c hc with h1 | h1
          · simp only [List.mem_cons] at h1
            rcases h1 with rfl | rfl | rfl | rfl | rfl | h1
            · exact Or.inr ⟨rfl, rfl⟩
            · exact Or.inr ⟨rfl, rfl⟩
            · exact Or.inr ⟨rfl, rfl⟩
            · exact Or.inr ⟨rfl, rfl⟩
            · exact Or.inr ⟨rfl, rfl⟩
            · exact Or.inl h1
          · exact Or.inr h1
    · cases h
      simp only [List.mem_cons] at hc
      rcases hc with rfl | hc
      · exact Or.inr ⟨rfl, rfl⟩
      · exact Or.inl hc

theorem removeChunkEff_keep {db : DBState} {a : Nat} {g : Func}
    (hg : g ∈ db.funcs) (hga : g.owns a = false) :
    g ∈ (removeChunkEff db a).funcs := by
  unfold removeChunkEff
  simp only [List.mem_map]
  exact ⟨g, hg, by simp [hga]⟩

theorem removeChunkEff_no_owner {db : DBState} {a : Nat}
    (h : ∀ f ∈ db.funcs, f.owns a = false) : removeChunkEff db a = db := by
  unfold removeChunkEff
  cases db with
  | mk funcs =>
    simp only [DBState.mk.injEq]
    have h2 : funcs.map (fun f =>
        if f.owns a then
          { entry := f.entry, chunks := f.chunks.filter (fun c => !c.contains a) }
        else f) = funcs.map id :=
      List.map_congr_left (fun f hf => by simp [h f hf])
    simpa using h2

theorem removeChunkEff_shape {db : DBState} {a : Nat} {f' : Func}
    (h : f' ∈ (removeChunkEff db a).funcs) :
    ∃ f ∈ db.funcs, f'.entry = f.entry ∧ ∀ c ∈ f'.chunks, c ∈ f.chunks := by
  unfold removeChunkEff at h
  simp only [List.mem_map] at h
  rcases h with ⟨f, hf, heq⟩
  by_cases ho : f.owns a = true
  · rw [ho, if_pos rfl] at heq
    refine ⟨f, hf, ?_, ?_⟩
    · rw [← heq]
    · intro c hc
      rw [← heq] at hc
      exact (List.mem_filter.mp hc).1
  · rw [Bool.not_eq_true] at ho
    rw [ho] at heq
    simp only [Bool.false_eq_true, if_false] at heq
    exact ⟨f, hf, by rw [← heq], fun c hc => by rw [← heq] at hc; exact hc⟩

theorem detach_keep {o : Oracle} {a : Nat} {g : Func} : ∀ (n : Nat) (s : S),
    g ∈ s.db.funcs → g.owns a = false → g ∈ (detachLoop o a n s).db.funcs := by
  intro n
  induction n with
  | zero => intro s hg _; exact hg
  | succ m ih =>
    intro s hg hga
    rw [detachLoop]
    by_cases hok : o.remove_fchunk_ok s.time a = true
    · simp only [remove_fchunkC, hok, if_true]
      exact ih _ (removeChunkEff_keep hg hga) hga
    · rw [Bool.not_eq_true] at hok
      simp only [remove_fchunkC, hok, Bool.false_eq_true, if_false]
      exact hg

theorem detach_shape {o : Oracle} {a : Nat} : ∀ (n : Nat) (s : S),
    ∀ f' ∈ (detachLoop o a n s).db.funcs, ∃ f ∈ s.db.funcs,
      f'.entry = f.entry ∧ ∀ c ∈ f'.chunks, c ∈ f.chunks := by
  intro n
  induction n with
  | zero => intro s f' hf'; exact ⟨f', hf', rfl, fun c hc => hc⟩
  | succ m ih =>
    intro s f' hf'
    rw [detachLoop] at hf'
    by_cases hok : o.remove_fchunk_ok s.time a = true
    · simp only [remove_fchunkC, hok, if_true] at hf'
      rcases ih _ f' hf' with ⟨f1, hf1, hent, hsub⟩
      rcases removeChunkEff_shape hf1 with ⟨f0, hf0, hent0, hsub0⟩
      exact ⟨f0, hf0, hent.trans hent0, fun c hc => hsub0 c (hsub c hc)⟩
    · rw [Bool.not_eq_true] at hok
      simp only [remove_fchunkC, hok, Bool.false_eq_true, if_false] at hf'
      exact ⟨f', hf', rfl, fun c hc => hc⟩

theorem detach_db_no_owner {o : Oracle} {a : Nat} : ∀ (n : Nat) (s : S),
    (∀ f ∈ s.db.funcs, f.owns a = false) → (detachLoop o a n s).db = s.db := by
  intro n
  induction n with
  | zero => intro s _; rfl
  | succ m ih =>
    intro s h
    rw [detachLoop]
    by_cases hok : o.remove_fchunk_ok s.time a = true
    · simp only [remove_fchunkC, hok, if_true]
      have he : removeChunkEff s.db a = s.db := removeChunkEff_no_owner h
      rw [he]
      exact ih _ h
    · rw [Bool.not_eq_true] at hok
      simp only [remove_fchunkC, hok, Bool.false_eq_true, if_false]

theorem delFuncEff_keep {db : DBState} {x : Nat} {g : Func}
    (hg : g ∈ db.funcs) (h : g.owns x = false) : g ∈ (delFuncEff db x).funcs :=
  List.mem_filter.mpr ⟨hg, by simp [h]⟩

theorem rollback_keep {o : Oracle} {g : Func} : ∀ (starts : List Nat) (s : S),
    g ∈ s.db.funcs → (∀ st ∈ starts, g.owns st = false) →
    g ∈ (rollbackDels o starts s).db.funcs := by
  intro starts
  induction starts with
  | nil => intro s hg _; exact hg
  | cons st rest ih =>
    intro s hg hall
    rw [rollbackDels, List.foldl_cons]
    have h1 : g ∈ ((del_funcC o s st).2).db.funcs := by
      simp only [del_funcC]
      by_cases hok : o.del_func_ok s.time st = true
      · simp only [hok, if_true]
        exact delFuncEff_keep hg (hall st (List.mem_cons_self st rest))
      · rw [Bool.not_eq_true] at hok
        simp only [hok, Bool.false_eq_true, if_false]
        exact hg
    exact ih _ h1 (fun y hy => hall y (List.mem_cons_of_mem st hy))

theorem verify_db : ∀ (l : List (Nat × Nat)) (s : S), (verifyChunks s l).2.db = s.db := by
  intro l
  induction l with
  | nil => intro s; rfl
  | cons p rest ih =>
    intro s
    cases p with
    | mk st en =>
      rw [verifyChunks]
      by_cases hok : (ownerOf s.db st).isSome = true
      · simp only [get_funcC, hok, if_true]
        have h2 := ih (tick s (Call.get_func st))
        simpa [tick] using h2
      · rw [Bool.not_eq_true] at hok
        simp only [get_funcC, hok, Bool.false_eq_true, if_false]
        rfl

/-! Trace bookkeeping: which kinds of calls a stage can add. -/

def NoNew (P : Call → Bool) (s s' : S) : Prop :=
  ∀ c ∈ s'.trace, c ∈ s.trace ∨ P c = false

theorem NoNew.rfl {P : Call → Bool} {s : S} : NoNew P s s :=
  fun _ hc => Or.inl hc

theorem NoNew.trans {P : Call → Bool} {s1 s2 s3 : S}
    (h1 : NoNew P s1 s2) (h2 : NoNew P s2 s3) : NoNew P s1 s3 := by
  intro c hc
  rcases h2 c hc with h | h
  · exact h1 c h
  · exact Or.inr h

theorem NoNew.push {P : Call → Bool} {s s' : S} {x : Call}
    (h : s'.trace = x :: s.trace) (hx : P x = false) : NoNew P s s' := by
  intro c hc
  rw [h] at hc
  rcases List.mem_cons.mp hc with rfl | hc
  · exact Or.inr hx
  · exact Or.inl hc

theorem noNew_tick {P : Call → Bool} {s : S} {x : Call}
    (h : P x = false) : NoNew P s (tick s x) :=
  NoNew.push rfl h

theorem noNew_add_funcC {P : Call → Bool} {o : Oracle} {s : S} {a : Nat}
    (h : P (Call.add_func a) = false) : NoNew P s (add_funcC o s a).2 :=
  NoNew.push rfl h

theorem noNew_del_funcC {P : Call → Bool} {o : Oracle} {s : S} {a : Nat}
    (h : P (Call.del_func a) = false) : NoNew P s (del_funcC o s a).2 :=
  NoNew.push rfl h

theorem noNew_list_chunksC {P : Call → Bool} {s : S} {a : Nat}
    (h : P (Call.list_chunks a) = false) : NoNew P s (list_chunksC s a).2 :=
  NoNew.push rfl h

theorem verify_noNew {P : Call → Bool} (hP : ∀ x, P (Call.get_func x) = false) :
    ∀ (l : List (Nat × Nat)) (s : S), NoNew P s (verifyChunks s l).2 := by
  intro l
  induction l with
  | nil => intro s; exact NoNew.rfl
  | cons p rest ih =>
    intro s
    cases p with
    | mk st en =>
      rw [verifyChunks]
      by_cases hok : (ownerOf s.db st).isSome = true
      · simp only [get_funcC, hok, if_true]
        exact NoNew.trans (noNew_tick (hP st)) (ih _)
      · rw [Bool.not_eq_true] at hok
        simp only [get_funcC, hok, Bool.false_eq_true, if_false]
        exact noNew_tick (hP st)

theorem rollback_noNew {P : Call → Bool} {o : Oracle}
    (hP : ∀ x, P (Call.del_func x) = false) :
    ∀ (starts : List Nat) (s : S), NoNew P s (rollbackDels o starts s) := by
  intro starts
  induction starts with
  | nil => intro s; exact NoNew.rfl
  | cons st rest ih =>
    intro s
    rw [rollbackDels, List.foldl_cons]
    exact NoNew.trans (noNew_del_funcC (hP st)) (ih _)

theorem restore_noNew {P : Call → Bool} {o : Oracle} {s : S} {orig : Nat}
    (hP : ∀ x, P (Call.add_func x) = false) : NoNew P s (restoreOrig o s orig) := by
  unfold restoreOrig
  by_cases h : orig ≠ BADADDR
  · rw [if_pos h]
    exact noNew_add_funcC (hP orig)
  · rw [if_neg h]
    exact NoNew.rfl

theorem destructive_noNew {P : Call → Bool} {o : Oracle} {s4 : S} {a orig : Nat}
    (hA : ∀ x, P (Call.add_func x) = false)
    (hD : ∀ x, P (Call.del_func x) = false)
    (hG : ∀ x, P (Call.get_func x) = false)
    (hL : ∀ x, P (Call.list_chunks x) = false) :
    NoNew P s4 (destructiveStage o s4 a orig).2 := by
  unfold destructiveStage
  by_cases h0 : orig ≠ BADADDR
  · rw [if_pos h0]
    dsimp only
    have hrc := noNew_list_chunksC (P := P) (s := s4) (a := orig) (hL orig)
    have hrd := NoNew.trans hrc (noNew_del_funcC (o := o) (a := orig) (hD orig))
    split
    · have hra2 := NoNew.trans hrd (noNew_add_funcC (o := o) (a := a) (hA a))
      split
      · have hra3 := NoNew.trans hra2 (noNew_add_funcC (o := o) (a := orig) (hA orig))
        have hrv := NoNew.trans hra3 (verify_noNew hG (list_chunksC s4 orig).1 _)
        split
        · split
          · exact hrv
          · exact NoNew.trans (NoNew.trans hrv (rollback_noNew hD _ _)) (restore_noNew hA)
        · exact NoNew.trans (NoNew.trans hra3 (rollback_noNew hD _ _)) (restore_noNew hA)
      · exact NoNew.trans (NoNew.trans hra2 (rollback_noNew hD _ _)) (restore_noNew hA)
    · exact NoNew.trans hrd (restore_noNew hA)
  · rw [if_neg h0]
    exact restore_noNew hA

theorem create_noNew {P : Call → Bool} {o : Oracle} {s3 : S} {a orig : Nat}
    (hA : ∀ x, P (Call.add_func x) = false)
    (hD : ∀ x, P (Call.del_func x) = false)
    (hG : ∀ x, P (Call.get_func x) = false)
    (hL : ∀ x, P (Call.list_chunks x) = false) :
    NoNew P s3 (createStage o s3 a orig).2 := by
  unfold createStage
  dsimp only
  split
  · exact noNew_add_funcC (hA a)
  · exact NoNew.trans (noNew_add_funcC (o := o) (a := a) (hA a))
      (destructive_noNew hA hD hG hL)

/-! Survival of untouched functions through each stage. -/

theorem addFuncC_keep {o : Oracle} {s : S} {a : Nat} {g : Func}
    (hg : g ∈ s.db.funcs) : g ∈ (add_funcC o s a).2.db.funcs := by
  simp only [add_funcC]
  by_cases hok : o.add_func_ok s.time a = true
  · simp only [hok, if_true, addFuncEff]
    exact List.mem_cons_of_mem _ hg
  · rw [Bool.not_eq_true] at hok
    simp only [hok, Bool.false_eq_true, if_false]
    exact hg

theorem add_funcC_db_of_fail {o : Oracle} {s : S} {a : Nat}
    (h : (add_funcC o s a).1 = false) : (add_funcC o s a).2.db = s.db := by
  simp only [add_funcC] at h ⊢
  rw [h]
  simp

theorem del_funcC_keep {o : Oracle} {s : S} {x : Nat} {g : Func}
    (hg : g ∈ s.db.funcs) (h : g.owns x = false) :
    g ∈ (del_funcC o s x).2.db.funcs := by
  simp only [del_funcC]
  by_cases hok : o.del_func_ok s.time x = true
  · simp only [hok, if_true]
    exact delFuncEff_keep hg h
  · rw [Bool.not_eq_true] at hok
    simp only [hok, Bool.false_eq_true, if_false]
    exact hg

theorem del_funcC_db_of_fail {o : Oracle} {s : S} {x : Nat}
    (h : (del_funcC o s x).1 = false) : (del_funcC o s x).2.db = s.db := by
  simp only [del_funcC] at h ⊢
  rw [h]
  simp

theorem restore_keep {o : Oracle} {s : S} {orig : Nat} {g : Func}
    (hg : g ∈ s.db.funcs) : g ∈ (restoreOrig o s orig).db.funcs := by
  unfold restoreOrig
  by_cases h : orig ≠ BADADDR
  · rw [if_pos h]
    exact addFuncC_keep hg
  · rw [if_neg h]
    exact hg

theorem destructive_keep {o : Oracle} {s4 : S} {a orig : Nat} {g : Func}
    (hg : g ∈ s4.db.funcs)
    (horig : orig ≠ BADADDR → g.owns orig = false)
    (hsnap0 : orig ≠ BADADDR → ∀ st ∈ (chunksQ s4.db orig).map Prod.fst, g.owns st = false) :
    g ∈ (destructiveStage o s4 a orig).2.db.funcs := by
  unfold destructiveStage
  by_cases h0 : orig ≠ BADADDR
  · rw [if_pos h0]
    dsimp only
    have hsnap := hsnap0 h0
    split
    · have hg6 : g ∈ (del_funcC o (list_chunksC s4 orig).2 orig).2.db.funcs :=
        del_funcC_keep hg (horig h0)
      split
      · have hg7 := addFuncC_keep (o := o) (a := a) hg6
        split
        · have hg8 := addFuncC_keep (o := o) (a := orig) hg7
          split
          · show g ∈ (verifyChunks _ _).2.db.funcs
            rw [verify_db]
            exact hg8
          · apply restore_keep
            apply rollback_keep _ _ _ hsnap
            show g ∈ (verifyChunks _ _).2.db.funcs
            rw [verify_db]
            exact hg8
        · exact restore_keep (rollback_keep _ _ (addFuncC_keep hg7) hsnap)
      · exact restore_keep (rollback_keep _ _ (addFuncC_keep hg6) hsnap)
    · apply restore_keep
      next hne =>
        rw [Bool.not_eq_true] at hne
        rw [del_funcC_db_of_fail hne]
        exact hg
  · rw [if_neg h0]
    exact restore_keep hg

theorem create_keep {o : Oracle} {s3 : S} {a orig : Nat} {g : Func}
    (hg : g ∈ s3.db.funcs)
    (horig : orig ≠ BADADDR → g.owns orig = false)
    (hsnap : orig ≠ BADADDR → ∀ st ∈ (chunksQ s3.db orig).map Prod.fst, g.owns st = false) :
    g ∈ (createStage o s3 a orig).2.db.funcs := by
  unfold createStage
  dsimp only
  split
  · exact addFuncC_keep hg
  · next hne =>
    rw [Bool.not_eq_true] at hne
    have hdb : (add_funcC o s3 a).2.db = s3.db := add_funcC_db_of_fail hne
    apply destructive_keep
    · rw [hdb]; exact hg
    · exact horig
    · rw [hdb]; exact hsnap

/-! Chunk-start ownership facts used to show that unrelated functions
survive the destructive stage and its rollback. -/

theorem snap_not_owned {s3db sdb : DBState} {orig : Nat} {g : Func}
    (hwf : WF sdb)
    (hshape : ∀ f' ∈ s3db.funcs, ∃ f ∈ sdb.funcs,
      f'.entry = f.entry ∧ ∀ c ∈ f'.chunks, c ∈ f.chunks)
    (hg : g ∈ sdb.funcs)
    (hgorig : g.owns orig = false) :
    ∀ st ∈ (chunksQ s3db orig).map Prod.fst, g.owns st = false := by
  intro st hst
  unfold chunksQ at hst
  cases ho : ownerOf s3db orig with
  | none => rw [ho] at hst; simp at hst
  | some f1 =>
    rw [ho] at hst
    simp only [List.map_map, List.mem_map, Function.comp] at hst
    rcases hst with ⟨c, hc, rfl⟩
    obtain ⟨hf1mem, hf1owns⟩ := ownerOf_mem ho
    rcases hshape f1 hf1mem with ⟨h0, hh0, hent, hsub⟩
    have hc0 : c ∈ h0.chunks := hsub c hc
    have hlt := (hwf.1 h0 hh0 c hc0).1
    have hown : h0.owns c.s = true := by
      unfold Func.owns
      refine List.any_eq_true.mpr ⟨c, hc0, ?_⟩
      simp only [Chunk.contains, Bool.and_eq_true, decide_eq_true_eq]
      omega
    by_contra hgst
    rw [Bool.not_eq_false] at hgst
    have hge : g = h0 := hwf.owner_unique hg hh0 hgst hown
    rcases List.any_eq_true.mp hf1owns with ⟨c', hc', hc'o⟩
    have ho0 : h0.owns orig = true := List.any_eq_true.mpr ⟨c', hsub c' hc', hc'o⟩
    rw [← hge, hgorig] at ho0
    exact Bool.false_ne_true ho0

theorem orig_not_owned {sdb : DBState} {a : Nat} {g : Func}
    (hwf : WF sdb) (hg : g ∈ sdb.funcs) (hga : g.owns a = false)
    (horig : firstFuncChunkQ sdb a ≠ BADADDR) :
    g.owns (firstFuncChunkQ sdb a) = false := by
  cases ho : ownerOf sdb a with
  | none => unfold firstFuncChunkQ at horig; rw [ho] at horig; simp at horig
  | some f0 =>
    cases hh : f0.chunks.head? with
    | none =>
      unfold firstFuncChunkQ at horig
      rw [ho] at horig
      simp only [hh] at horig
      simp at horig
    | some c0 =>
      have heq : firstFuncChunkQ sdb a = c0.s := by
        unfold firstFuncChunkQ
        rw [ho]
        simp only [hh]
      rw [heq]
      obtain ⟨hf0mem, hf0owns⟩ := ownerOf_mem ho
      have hc0 : c0 ∈ f0.chunks := List.mem_of_mem_head? (by simp [hh])
      have hlt := (hwf.1 f0 hf0mem c0 hc0).1
      have hown : f0.owns c0.s = true := by
        unfold Func.owns
        refine List.any_eq_true.mpr ⟨c0, hc0, ?_⟩
        simp only [Chunk.contains, Bool.and_eq_true, decide_eq_true_eq]
        omega
      by_contra hgst
      rw [Bool.not_eq_false] at hgst
      have hge : g = f0 := hwf.owner_unique hg hf0mem hgst hown
      rw [← hge, hga] at hf0owns
      exact Bool.false_ne_true hf0owns

/-- Any function not owning `a` that is present before
`_convert_address_to_function` runs is still present afterwards: the
repair only ever removes the function owning `a` and functions it created
itself. -/
theorem owner_survives {o : Oracle} {fuel : Nat} {s : S} {a : Nat} {p : Bool × S}
    (hwf : WF s.db) (h : convert_address_to_function o fuel s a = some p)
    {g : Func} (hg : g ∈ s.db.funcs) (hga : g.owns a = false) :
    g ∈ p.2.db.funcs := by
  unfold convert_address_to_function at h
  dsimp only at h
  have horigc : firstFuncChunkQ s.db a ≠ BADADDR →
      g.owns (firstFuncChunkQ s.db a) = false :=
    fun hne => orig_not_owned hwf hg hga hne
  split at h
  · rcases Option.map_eq_some'.mp h with ⟨q, hq, hp⟩
    subst hp
    have hdb : q.2.db = s.db := by
      have h2 := fix_db _ _ _ hq
      simpa [find_func_endC, first_func_chunkC, tick] using h2
    apply create_keep
    · rw [hdb]; exact hg
    · exact horigc
    · intro hne
      rw [hdb]
      refine snap_not_owned hwf ?_ hg (horigc hne)
      intro f' hf'
      exact ⟨f', hf', rfl, fun c hc => hc⟩
  · cases h
    apply create_keep
    · exact detach_keep _ _ hg hga
    · exact horigc
    · intro hne
      refine snap_not_owned hwf ?_ hg (horigc hne)
      intro f' hf'
      exact detach_shape 1024 (find_func_endC o (first_func_chunkC s a).2 a).2 f' hf'

/-- Orphan bound for `_convert_address_to_function`: addresses owned before
the call but by nobody afterwards all lie in the chunk set the owner of `a`
had before the call. -/
theorem convert_orphans_sub {o : Oracle} {fuel : Nat} {s : S} {a : Nat}
    {p : Bool × S} (hwf : WF s.db)
    (h : convert_address_to_function o fuel s a = some p) :
    ownedAddrs s.db \ ownedAddrs p.2.db ⊆ origAddrs s.db a := by
  intro x hx
  rcases Finset.mem_sdiff.mp hx with ⟨hb, hna⟩
  rcases mem_ownedAddrs.mp hb with ⟨g, hgmem, hgx⟩
  by_cases hga : g.owns a = true
  · cases ho : ownerOf s.db a with
    | none =>
      have := ownerOf_eq_none ho g hgmem
      rw [this] at hga
      exact absurd hga (by simp)
    | some f0 =>
      obtain ⟨hf0mem, hf0owns⟩ := ownerOf_mem ho
      have hge : g = f0 := hwf.owner_unique hgmem hf0mem hga hf0owns
      unfold origAddrs
      rw [ho]
      rw [← hge]
      exact owns_iff_mem_addrs.mp hgx
  · rw [Bool.not_eq_true] at hga
    have hsurv := owner_survives hwf h hgmem hga
    exact absurd (mem_ownedAddrs.mpr ⟨g, hsurv, hgx⟩) hna

/-- C5: whenever `ensure_function` (force_function) runs — in particular
whenever the rollback path is reached — the addresses left owned by no
function afterwards all lay in the chunk set the original owner of `addr`
had before the call began, so their number never exceeds the size of that
snapshot, for every analysis-database behaviour including partial rollback
failure. -/
theorem C5_rollback_orphan_bound (o : Oracle) (fuel : Nat) (s : S) (a : Nat)
    (p : Bool × S) (hwf : WF s.db)
    (h : force_function o fuel s a = some p) :
    ownedAddrs s.db \ ownedAddrs p.2.db ⊆ origAddrs s.db a ∧
    (ownedAddrs s.db \ ownedAddrs p.2.db).card ≤ (origAddrs s.db a).card := by
  unfold force_function at h
  dsimp only at h
  split at h
  · cases h
    have hsub : ownedAddrs s.db \
        ownedAddrs (tick s (Call.get_func_attr_start a)).db ⊆ origAddrs s.db a := by
      intro x hx
      simp [tick] at hx
    exact ⟨hsub, Finset.card_le_card hsub⟩
  · have hsub := convert_orphans_sub (s := tick s (Call.get_func_attr_start a))
      (a := a) hwf h
    exact ⟨hsub, Finset.card_le_card hsub⟩

def dbEmpty : DBState := ⟨[]⟩

/-- Oracle on which every engine operation fails and `find_func_end`
always resolves to `5`. -/
def oAllFail : Oracle :=
  ⟨fun _ _ => 5, fun _ _ => 0, fun _ _ => 0, fun _ _ => false, fun _ _ => false,
   fun _ _ => false, fun _ _ => 0, fun _ _ => [], fun _ _ => false⟩

def sEmpty : S := ⟨dbEmpty, 0, []⟩

def pFailEmpty : Bool × S := (false, ⟨dbEmpty, 5,
  [Call.add_func 4, Call.remove_fchunk 4 4, Call.find_func_end 4,
   Call.first_func_chunk 4, Call.get_func_attr_start 4]⟩)

/-- Witness for C5 at a concrete run. -/
theorem C5_rollback_orphan_bound_witness :
    (ownedAddrs sEmpty.db \ ownedAddrs pFailEmpty.2.db).card ≤ (origAddrs sEmpty.db 4).card :=
  (C5_rollback_orphan_bound oAllFail 1 sEmpty 4 pFailEmpty (by decide) (by decide)).2

/-! C2: idempotent no-op when the address already starts a function. -/

/-- C2: if `addr` is already classified as a function start,
`ensure_function` (force_function) returns success immediately, issues only
the single non-mutating classification query, and leaves the database
unchanged. -/
theorem C2_idempotent_noop (o : Oracle) (fuel : Nat) (s : S) (a : Nat)
    (h : isFuncStartQ s.db a = true) :
    force_function o fuel s a = some (true, tick s (Call.get_func_attr_start a)) ∧
    (tick s (Call.get_func_attr_start a)).db = s.db ∧
    (tick s (Call.get_func_attr_start a)).trace.filter Call.mutating =
      s.trace.filter Call.mutating := by
  refine ⟨?_, rfl, ?_⟩
  · unfold force_function
    dsimp only
    simp only [is_function_start, h, if_true]
  · simp [tick, List.filter_cons, Call.mutating]

def dbC2 : DBState := ⟨[⟨4, [⟨4, 8⟩]⟩]⟩

def sC2 : S := ⟨dbC2, 0, []⟩

/-- Witness for C2 at a concrete already-classified address. -/
theorem C2_idempotent_noop_witness :
    force_function oAllFail 1 sC2 4 = some (true, tick sC2 (Call.get_func_attr_start 4)) :=
  (C2_idempotent_noop oAllFail 1 sC2 4 (by decide)).1

/-! C6: with no original function, failure leaves ownership untouched. -/

theorem createStage_badaddr {o : Oracle} {s3 : S} {a : Nat} :
    createStage o s3 a BADADDR = ((add_funcC o s3 a).1, (add_funcC o s3 a).2) := by
  unfold createStage destructiveStage restoreOrig
  dsimp only
  by_cases hok : (add_funcC o s3 a).1 = true
  · simp [hok]
  · rw [Bool.not_eq_true] at hok
    simp [hok]

theorem detach_noNew {P : Call → Bool} {o : Oracle} {a : Nat}
    (hP : ∀ fa x, P (Call.remove_fchunk fa x) = false) :
    ∀ (n : Nat) (s : S), NoNew P s (detachLoop o a n s) := by
  intro n
  induction n with
  | zero => intro s; exact NoNew.rfl
  | succ m ih =>
    intro s
    rw [detachLoop]
    by_cases hok : o.remove_fchunk_ok s.time a = true
    · simp only [remove_fchunkC, hok, if_true]
      exact NoNew.trans (NoNew.push (s := s) rfl (hP a a)) (ih _)
    · rw [Bool.not_eq_true] at hok
      simp only [remove_fchunkC, hok, Bool.false_eq_true, if_false]
      exact NoNew.push (s := s) rfl (hP a a)

theorem isFuncStartQ_false_of_no_owner {db : DBState} {a : Nat}
    (hno : ownerOf db a = none) : isFuncStartQ db a = false := by
  unfold isFuncStartQ
  rw [List.any_eq_false]
  intro f hf
  simp [ownerOf_eq_none hno f hf]

theorem convert_no_orig {o : Oracle} {fuel : Nat} {s : S} {a : Nat} {s' : S}
    (hno : ownerOf s.db a = none)
    (h : convert_address_to_function o fuel s a = some (false, s')) :
    s'.db = s.db ∧ NoNew Call.isDelFunc s s' := by
  have horig : firstFuncChunkQ s.db a = BADADDR := by
    unfold firstFuncChunkQ; rw [hno]
  have hpre : NoNew Call.isDelFunc s (find_func_endC o (first_func_chunkC s a).2 a).2 :=
    NoNew.trans (NoNew.push (s := s) (x := Call.first_func_chunk a) rfl rfl)
      (NoNew.push (x := Call.find_func_end a) rfl rfl)
  unfold convert_address_to_function at h
  dsimp only at h
  simp only [first_func_chunkC] at h
  rw [horig] at h
  split at h
  · rcases Option.map_eq_some'.mp h with ⟨q, hq, hp⟩
    rw [createStage_badaddr] at hp
    have hfst : (add_funcC o q.2 a).1 = false := by
      have := congrArg Prod.fst hp
      simpa using this
    have hsnd : (add_funcC o q.2 a).2 = s' := by
      have := congrArg Prod.snd hp
      simpa using this
    have hqdb : q.2.db = s.db := by
      have h2 := fix_db _ _ _ hq
      simpa [find_func_endC, tick] using h2
    constructor
    · rw [← hsnd, add_funcC_db_of_fail hfst, hqdb]
    · intro c hc
      rw [← hsnd] at hc
      rcases List.mem_cons.mp hc with rfl | hc2
      · exact Or.inr rfl
      · rcases fix_new_calls _ _ _ hq c hc2 with h1 | h1
        · exact hpre c (by simpa [find_func_endC, first_func_chunkC, tick] using h1)
        · exact Or.inr h1.2
  · rw [createStage_badaddr] at h
    have hfst : (add_funcC o (detachLoop o a 1024
        (find_func_endC o (tick s (Call.first_func_chunk a)) a).2) a).1 = false := by
      have := congrArg Prod.fst (Option.some.inj h)
      simpa using this
    have hsnd : (add_funcC o (detachLoop o a 1024
        (find_func_endC o (tick s (Call.first_func_chunk a)) a).2) a).2 = s' := by
      have := congrArg Prod.snd (Option.some.inj h)
      simpa using this
    have hddb : (detachLoop o a 1024
        (find_func_endC o (tick s (Call.first_func_chunk a)) a).2).db = s.db := by
      apply detach_db_no_owner
      intro f hf
      exact ownerOf_eq_none hno f hf
    constructor
    · rw [← hsnd, add_funcC_db_of_fail hfst, hddb]
    · intro c hc
      rw [← hsnd] at hc
      rcases List.mem_cons.mp hc with rfl | hc2
      · exact Or.inr rfl
      · have hdn : NoNew Call.isDelFunc s (detachLoop o a 1024
            (find_func_endC o (tick s (Call.first_func_chunk a)) a).2) :=
          NoNew.trans (NoNew.trans (NoNew.push (s := s)
            (x := Call.first_func_chunk a) rfl rfl)
            (NoNew.push (x := Call.find_func_end a) rfl rfl))
            (detach_noNew (fun _ _ => rfl) _ _)
        exact hdn c hc2

/-- C6: when no function owned `addr`'s chunk before the call and the
repair fails, `ensure_function` attempts no destructive delete/recreate
step (no `del_func` call is ever issued) and the set of addresses owned by
some function is exactly what it was before the call. -/
theorem C6_no_orig_no_regression (o : Oracle) (fuel : Nat) (s : S) (a : Nat)
    (s' : S) (hno : ownerOf s.db a = none)
    (h : force_function o fuel s a = some (false, s')) :
    s'.db = s.db ∧ ownedAddrs s'.db = ownedAddrs s.db ∧
    ∀ c ∈ s'.trace, c ∈ s.trace ∨ c.isDelFunc = false := by
  unfold force_function at h
  dsimp only at h
  simp only [is_function_start, isFuncStartQ_false_of_no_owner hno,
    Bool.false_eq_true, if_false] at h
  obtain ⟨hdb, hnn⟩ :=
    convert_no_orig (s := tick s (Call.get_func_attr_start a)) hno h
  refine ⟨hdb, by rw [hdb]; rfl, ?_⟩
  intro c hc
  rcases hnn c hc with hold | hfalse
  · rcases List.mem_cons.mp hold with rfl | hold2
    · exact Or.inr rfl
    · exact Or.inl hold2
  · exact Or.inr hfalse

/-- Witness for C6 at a concrete total-failure run on an empty database. -/
theorem C6_no_orig_no_regression_witness :
    pFailEmpty.2.db = sEmpty.db ∧
    ownedAddrs pFailEmpty.2.db = ownedAddrs sEmpty.db ∧
    ∀ c ∈ pFailEmpty.2.trace, c ∈ sEmpty.trace ∨ c.isDelFunc = false :=
  C6_no_orig_no_regression oAllFail 1 sEmpty 4 pFailEmpty.2 (by decide) (by decide)

/-! C10: every failing exit with an original function ends with a final
best-effort `add_func(orig)` call. -/

theorem restore_trace {o : Oracle} {s : S} {orig : Nat} (h : orig ≠ BADADDR) :
    (restoreOrig o s orig).trace = Call.add_func orig :: s.trace := by
  unfold restoreOrig
  rw [if_pos h]
  rfl

theorem destructive_false_head {o : Oracle} {s4 : S} {a orig : Nat}
    (h0 : orig ≠ BADADDR) (hr : (destructiveStage o s4 a orig).1 = false) :
    (destructiveStage o s4 a orig).2.trace.head? = some (Call.add_func orig) := by
  unfold destructiveStage at hr ⊢
  rw [if_pos h0] at hr ⊢
  dsimp only at hr ⊢
  by_cases hd : (del_funcC o (list_chunksC s4 orig).2 orig).1 = true
  · rw [if_pos hd] at hr ⊢
    by_cases ha2 : (add_funcC o (del_funcC o (list_chunksC s4 orig).2 orig).2 a).1 = true
    · rw [if_pos ha2] at hr ⊢
      by_cases ha3 : (add_funcC o (add_funcC o
          (del_funcC o (list_chunksC s4 orig).2 orig).2 a).2 orig).1 = true
      · rw [if_pos ha3] at hr ⊢
        by_cases hv : (verifyChunks (add_funcC o (add_funcC o
            (del_funcC o (list_chunksC s4 orig).2 orig).2 a).2 orig).2
            (list_chunksC s4 orig).1).1 = true
        · rw [if_pos hv] at hr
          simp at hr
        · rw [if_neg hv] at hr ⊢
          dsimp only
          rw [restore_trace h0]
          rfl
      · rw [if_neg ha3] at hr ⊢
        dsimp only
        rw [restore_trace h0]
        rfl
    · rw [if_neg ha2] at hr ⊢
      dsimp only
      rw [restore_trace h0]
      rfl
  · rw [if_neg hd] at hr ⊢
    dsimp only
    rw [restore_trace h0]
    rfl

theorem create_false_head {o : Oracle} {s3 : S} {a orig : Nat}
    (h0 : orig ≠ BADADDR) (hr : (createStage o s3 a orig).1 = false) :
    (createStage o s3 a orig).2.trace.head? = some (Call.add_func orig) := by
  unfold createStage at hr ⊢
  dsimp only at hr ⊢
  by_cases ha : (add_funcC o s3 a).1 = true
  · rw [if_pos ha] at hr
    simp at hr
  · rw [if_neg ha] at hr ⊢
    exact destructive_false_head h0 hr

/-- C10: on every failing exit of `_convert_address_to_function` where the
pre-captured first chunk `orig` is not `BADADDR`, the very last database
call issued is the best-effort `add_func(orig)` restore, and the result is
`false` regardless of that call's outcome. -/
theorem C10_final_restore_call (o : Oracle) (fuel : Nat) (s : S) (a : Nat) (s' : S)
    (h : convert_address_to_function o fuel s a = some (false, s'))
    (h0 : firstFuncChunkQ s.db a ≠ BADADDR) :
    s'.trace.head? = some (Call.add_func (firstFuncChunkQ s.db a)) := by
  unfold convert_address_to_function at h
  dsimp only at h
  simp only [first_func_chunkC] at h
  split at h
  · rcases Option.map_eq_some'.mp h with ⟨q, hq, hp⟩
    have hfst : (createStage o q.2 a (firstFuncChunkQ s.db a)).1 = false := by
      have := congrArg Prod.fst hp
      simpa using this
    have hsnd : (createStage o q.2 a (firstFuncChunkQ s.db a)).2 = s' := by
      have := congrArg Prod.snd hp
      simpa using this
    rw [← hsnd]
    exact create_false_head h0 hfst
  · have hp := Option.some.inj h
    have hfst : (createStage o (detachLoop o a 1024
        (find_func_endC o (tick s (Call.first_func_chunk a)) a).2) a
        (firstFuncChunkQ s.db a)).1 = false := by
      have := congrArg Prod.fst hp
      simpa using this
    have hsnd : (createStage o (detachLoop o a 1024
        (find_func_endC o (tick s (Call.first_func_chunk a)) a).2) a
        (firstFuncChunkQ s.db a)).2 = s' := by
      have := congrArg Prod.snd hp
      simpa using this
    rw [← hsnd]
    exact create_false_head h0 hfst

def dbG : DBState := ⟨[⟨100, [⟨100, 110⟩]⟩]⟩

def sG : S := ⟨dbG, 0, []⟩

/-- Witness for C10 at a concrete failing run over a one-function database. -/
theorem C10_final_restore_call_witness :
    ((convert_address_to_function oAllFail 1 sG 104).map
      (fun p => p.2.trace.head?)).getD none = some (Call.add_func 100) := by
  have h : convert_address_to_function oAllFail 1 sG 104 =
      some (false, ((convert_address_to_function oAllFail 1 sG 104).map Prod.snd).getD sG) := by
    decide
  have h2 := C10_final_restore_call oAllFail 1 sG 104
    (((convert_address_to_function oAllFail 1 sG 104).map Prod.snd).getD sG) h (by decide)
  rw [h]
  simpa using h2

/-- C9: `ensure_function` never signals repair failure by an exception:
every terminating call returns a boolean, and the only way not to return
one is the unbounded recovery loop — entered only when the address is not
yet a function start and the engine cannot resolve its function end. -/
theorem C9_failure_reported_as_boolean (o : Oracle) (fuel : Nat) (s : S) (a : Nat) :
    (∃ b s', force_function o fuel s a = some (b, s')) ∨
    (force_function o fuel s a = none ∧ isFuncStartQ s.db a = false ∧
      o.find_func_end (s.time + 2) a = BADADDR) := by
  unfold force_function
  dsimp only
  by_cases hisf : isFuncStartQ s.db a = true
  · simp only [is_function_start, hisf, if_true]
    exact Or.inl ⟨true, _, rfl⟩
  · rw [Bool.not_eq_true] at hisf
    simp only [is_function_start, hisf, Bool.false_eq_true, if_false]
    unfold convert_address_to_function
    dsimp only
    by_cases hf : (find_func_endC o
        (first_func_chunkC (tick s (Call.get_func_attr_start a)) a).2 a).1 = BADADDR
    · rw [if_pos hf]
      cases hq : fix_unrecognized_function_insns o a fuel (find_func_endC o
          (first_func_chunkC (tick s (Call.get_func_attr_start a)) a).2 a).2 with
      | some q => exact Or.inl ⟨_, _, rfl⟩
      | none => exact Or.inr ⟨rfl, trivial, hf⟩
    · rw [if_neg hf]
      exact Or.inl ⟨_, _, rfl⟩

/-! C1: a `true` result always leaves `addr` a function start; the
converse direction of the spec's iff fails. -/

theorem add_funcC_db_of_ok {o : Oracle} {s : S} {a : Nat}
    (h : (add_funcC o s a).1 = true) :
    (add_funcC o s a).2.db = addFuncEff o s.time s.db a := by
  simp only [add_funcC] at h ⊢
  rw [h]
  simp

theorem isFuncStart_addFuncEff {o : Oracle} {t : Nat} {db : DBState} {a : Nat} :
    isFuncStartQ (addFuncEff o t db a) a = true := by
  unfold isFuncStartQ addFuncEff newFunc
  rw [List.any_cons]
  apply Bool.or_eq_true_iff.mpr
  left
  simp [Func.owns, Chunk.contains]
  left
  omega

theorem isFuncStartQ_add_keep {o : Oracle} {s : S} {x a : Nat}
    (h : isFuncStartQ s.db a = true) :
    isFuncStartQ (add_funcC o s x).2.db a = true := by
  simp only [add_funcC]
  by_cases hok : o.add_func_ok s.time x = true
  · simp only [hok, if_true, addFuncEff]
    unfold isFuncStartQ at h ⊢
    rw [List.any_cons]
    exact Bool.or_eq_true_iff.mpr (Or.inr h)
  · rw [Bool.not_eq_true] at hok
    simp only [hok, Bool.false_eq_true, if_false]
    exact h

theorem destructive_true {o : Oracle} {s4 : S} {a orig : Nat} {s' : S}
    (h : destructiveStage o s4 a orig = (true, s')) :
    isFuncStartQ s'.db a = true := by
  unfold destructiveStage at h
  by_cases h0 : orig ≠ BADADDR
  · rw [if_pos h0] at h
    dsimp only at h
    by_cases hd : (del_funcC o (list_chunksC s4 orig).2 orig).1 = true
    · rw [if_pos hd] at h
      by_cases ha2 : (add_funcC o (del_funcC o (list_chunksC s4 orig).2 orig).2 a).1 = true
      · rw [if_pos ha2] at h
        by_cases ha3 : (add_funcC o (add_funcC o
            (del_funcC o (list_chunksC s4 orig).2 orig).2 a).2 orig).1 = true
        · rw [if_pos ha3] at h
          by_cases hv : (verifyChunks (add_funcC o (add_funcC o
              (del_funcC o (list_chunksC s4 orig).2 orig).2 a).2 orig).2
              (list_chunksC s4 orig).1).1 = true
          · rw [if_pos hv] at h
            have hs := congrArg Prod.snd h
            dsimp at hs
            rw [← hs]
            have hverdb := verify_db (list_chunksC s4 orig).1 (add_funcC o (add_funcC o
              (del_funcC o (list_chunksC s4 orig).2 orig).2 a).2 orig).2
            rw [hverdb]
            apply isFuncStartQ_add_keep
            rw [add_funcC_db_of_ok ha2]
            exact isFuncStart_addFuncEff
          · rw [if_neg hv] at h
            exact absurd (congrArg Prod.fst h) (by simp)
        · rw [if_neg ha3] at h
          exact absurd (congrArg Prod.fst h) (by simp)
      · rw [if_neg ha2] at h
        exact absurd (congrArg Prod.fst h) (by simp)
    · rw [if_neg hd] at h
      exact absurd (congrArg Prod.fst h) (by simp)
  · rw [if_neg h0] at h
    exact absurd (congrArg Prod.fst h) (by simp)

theorem createStage_true {o : Oracle} {s3 : S} {a orig : Nat} {s' : S}
    (h : createStage o s3 a orig = (true, s')) :
    isFuncStartQ s'.db a = true := by
  unfold createStage at h
  dsimp only at h
  by_cases ha : (add_funcC o s3 a).1 = true
  · rw [if_pos ha] at h
    have hs := congrArg Prod.snd h
    dsimp at hs
    rw [← hs]
    rw [add_funcC_db_of_ok ha]
    exact isFuncStart_addFuncEff
  · rw [if_neg ha] at h
    exact destructive_true h

/-- C1 (amended): whenever `ensure_function` returns `true`, the address
is classified as a function start in the database at that moment. -/
theorem C1_success_gives_function_start (o : Oracle) (fuel : Nat) (s : S)
    (a : Nat) (s' : S) (h : force_function o fuel s a = some (true, s')) :
    isFuncStartQ s'.db a = true := by
  unfold force_function at h
  dsimp only at h
  by_cases hisf : isFuncStartQ s.db a = true
  · simp only [is_function_start, hisf, if_true] at h
    cases h
    exact hisf
  · rw [Bool.not_eq_true] at hisf
    simp only [is_function_start, hisf, Bool.false_eq_true, if_false] at h
    unfold convert_address_to_function at h
    dsimp only at h
    split at h
    · rcases Option.map_eq_some'.mp h with ⟨q, hq, hp⟩
      exact createStage_true hp
    · exact createStage_true (Option.some.inj h)

/-- Oracle driving the rollback-failure counterexample for C1: the first
function is deleted, the new function at `addr` is created, recreating the
original fails, and every rollback and restore operation fails. -/
def oRollbackFail : Oracle :=
  ⟨fun _ _ => 110, fun _ _ => 0, fun _ _ => 0, fun _ _ => false, fun _ _ => false,
   fun t _ => t == 7, fun _ _ => 0, fun _ _ => [], fun t _ => t == 6⟩

/-- C1 counterexample: `ensure_function` can return `false` while `addr`
IS a function start at the moment the call returns (the nested creation at
`addr` succeeded, recreating the original function failed, and rollback
failed to delete the new function), refuting the claimed iff for an
address that was not initially a function start. -/
theorem C1_iff_counterexample :
    isFuncStartQ sG.db 104 = false ∧
    (force_function oRollbackFail 5 sG 104).map
      (fun p => (p.1, isFuncStartQ p.2.db 104)) = some (false, true) := by
  constructor
  · decide
  · decide

/-- Oracle on which creating a function always succeeds. -/
def oAddOk : Oracle :=
  ⟨fun _ _ => 5, fun _ _ => 0, fun _ _ => 0, fun _ _ => false, fun _ _ => false,
   fun _ _ => true, fun _ _ => 0, fun _ _ => [], fun _ _ => false⟩

/-- Witness for the amended C1 at a concrete successful run. -/
theorem C1_success_gives_function_start_witness :
    isFuncStartQ (((force_function oAddOk 1 sEmpty 104).map
      Prod.snd).getD sEmpty).db 104 = true := by
  apply C1_success_gives_function_start oAddOk 1 sEmpty 104
  decide

/-! C3: the chunk-detachment loop is bounded by its 1024 iterations, but
the instruction-boundary recovery loop has no iteration bound in the
source and loops forever on an engine that always reports an unresolved
boundary with a nonzero item and lets the redefinition succeed. -/

/-- Engine on which `find_func_end` never resolves, `find_func_bounds`
always reports the nonzero boundary item `1`, and redefinition as an
instruction always succeeds. -/
def oLoop : Oracle :=
  ⟨fun _ _ => BADADDR, fun _ _ => 1, fun _ _ => 0, fun _ _ => true, fun _ _ => true,
   fun _ _ => true, fun _ _ => 0, fun _ _ => [], fun _ _ => true⟩

theorem fix_diverges_on_oLoop : ∀ (n : Nat) (s : S),
    fix_unrecognized_function_insns oLoop 4 n s = none := by
  intro n
  induction n with
  | zero => intro s; rfl
  | succ m ih =>
    intro s
    rw [fix_unrecognized_function_insns]
    rw [if_pos (show (find_func_endC oLoop s 4).1 = BADADDR from rfl)]
    rw [if_neg (show ¬(find_func_boundsC oLoop (find_func_endC oLoop s 4).2 4).1 = 0 from
      by simp [find_func_boundsC, oLoop])]
    dsimp only
    rw [if_neg (show ¬(create_insnC oLoop (del_itemsC (get_item_endC oLoop
        (find_func_boundsC oLoop (find_func_endC oLoop s 4).2 4).2
        (find_func_boundsC oLoop (find_func_endC oLoop s 4).2 4).1).2
        (find_func_boundsC oLoop (find_func_endC oLoop s 4).2 4).1)
        (find_func_boundsC oLoop (find_func_endC oLoop s 4).2 4).1).1 = false from
      by simp [create_insnC, oLoop])]
    exact ih _

theorem detach_remove_count {o : Oracle} {a : Nat} : ∀ (n : Nat) (s : S),
    (detachLoop o a n s).trace.countP Call.isRemove ≤
      s.trace.countP Call.isRemove + n := by
  intro n
  induction n with
  | zero => intro s; simp [detachLoop]
  | succ m ih =>
    intro s
    rw [detachLoop]
    by_cases hok : o.remove_fchunk_ok s.time a = true
    · simp only [remove_fchunkC, hok, if_true]
      have h2 := ih { db := removeChunkEff s.db a, time := s.time + 1,
                      trace := Call.remove_fchunk a a :: s.trace }
      calc (detachLoop o a m _).trace.countP Call.isRemove
          ≤ (Call.remove_fchunk a a :: s.trace).countP Call.isRemove + m := h2
        _ ≤ s.trace.countP Call.isRemove + (m + 1) := by
            rw [List.countP_cons]
            simp [Call.isRemove]
            try omega
    · rw [Bool.not_eq_true] at hok
      simp only [remove_fchunkC, hok, Bool.false_eq_true, if_false]
      rw [List.countP_cons]
      simp [Call.isRemove]
      try omega

/-- C3 (amended): for every engine behaviour the chunk-detachment loop
issues at most its 1024 bounded `remove_fchunk` calls; the
instruction-boundary recovery loop, by contrast, has no iteration bound
and never terminates against the adversarial engine above. -/
theorem C3_detach_bounded_recovery_unbounded :
    (∀ (o : Oracle) (a : Nat) (s : S),
      (detachLoop o a 1024 s).trace.countP Call.isRemove ≤
        s.trace.countP Call.isRemove + 1024) ∧
    (∀ (n : Nat) (s : S), fix_unrecognized_function_insns oLoop 4 n s = none) :=
  ⟨fun o a s => detach_remove_count (o := o) (a := a) 1024 s, fix_diverges_on_oLoop⟩

/-- C3 counterexample: there is no amount of fuel within which the
recovery loop of `_fix_unrecognized_function_insns` finishes against an
engine that always reports an unresolved boundary with a nonzero item and
always lets the redefinition succeed — the loop runs forever, refuting the
claimed iteration bound. -/
theorem C3_counterexample :
    ¬ ∃ n : Nat, (fix_unrecognized_function_insns oLoop 4 n
      ⟨⟨[]⟩, 0, []⟩).isSome = true := by
  rintro ⟨n, hn⟩
  rw [fix_diverges_on_oLoop] at hn
  simp at hn

/-! C4: failed instruction-boundary recovery is ignored by the caller — the
repair still proceeds to the normal creation attempt (skipping
chunk-detachment), which may succeed. -/

/-- Engine on which recovery always fails (no boundary item) but creating
a function succeeds. -/
def oC4 : Oracle :=
  ⟨fun _ _ => BADADDR, fun _ _ => 0, fun _ _ => 0, fun _ _ => false, fun _ _ => false,
   fun _ _ => true, fun _ _ => 0, fun _ _ => [], fun _ _ => false⟩

/-- C4 counterexample: a run in which instruction-boundary recovery fails
(the engine reports a null boundary item) and yet
`_convert_address_to_function` returns success — the normal creation
attempt still runs and succeeds, refuting the claim that recovery failure
leads directly to the everything-failed branch and a failure result. -/
theorem C4_counterexample :
    (fix_unrecognized_function_insns oC4 4 1
      (tick (tick sEmpty (Call.first_func_chunk 4)) (Call.find_func_end 4))).map
      Prod.fst = some false ∧
    (convert_address_to_function oC4 1 sEmpty 4).map Prod.fst = some true := by
  constructor
  · decide
  · decide

/-- C4 (amended): when the fix path is taken, the recovery result is
discarded: whatever boolean recovery returned, control proceeds to step
4's creation stage on the recovery's final state, chunk-detachment (step
3) is skipped, and no `remove_fchunk` call is ever issued. -/
theorem C4_recovery_failure_skips_detach (o : Oracle) (fuel : Nat) (s : S) (a : Nat)
    (q : Bool × S)
    (hb : o.find_func_end (s.time + 1) a = BADADDR)
    (hfix : fix_unrecognized_function_insns o a fuel
      (tick (tick s (Call.first_func_chunk a)) (Call.find_func_end a)) = some q) :
    convert_address_to_function o fuel s a =
      some (createStage o q.2 a (firstFuncChunkQ s.db a)) ∧
    ∀ c ∈ (createStage o q.2 a (firstFuncChunkQ s.db a)).2.trace,
      c ∈ s.trace ∨ c.isRemove = false := by
  have hcond : (find_func_endC o (first_func_chunkC s a).2 a).1 = BADADDR := hb
  constructor
  · unfold convert_address_to_function
    dsimp only
    rw [if_pos hcond]
    have hfix2 : fix_unrecognized_function_insns o a fuel
        (find_func_endC o (first_func_chunkC s a).2 a).2 = some q := hfix
    rw [hfix2]
    rfl
  · intro c hc
    rcases create_noNew (P := Call.isRemove) (fun _ => rfl) (fun _ => rfl)
      (fun _ => rfl) (fun _ => rfl) c hc with h1 | h1
    · rcases fix_new_calls _ _ _ hfix c h1 with h2 | h2
      · rcases List.mem_cons.mp h2 with rfl | h3
        · exact Or.inr rfl
        · rcases List.mem_cons.mp h3 with rfl | h4
          · exact Or.inr rfl
          · exact Or.inl h4
      · exact Or.inr h2.1
    · exact Or.inr h1

def qC4 : Bool × S := (false, ⟨dbEmpty, 4,
  [Call.find_func_bounds 4, Call.find_func_end 4, Call.find_func_end 4,
   Call.first_func_chunk 4]⟩)

/-- Witness for the amended C4 at a concrete failed-recovery run. -/
theorem C4_recovery_failure_skips_detach_witness :
    convert_address_to_function oC4 1 sEmpty 4 =
      some (createStage oC4 qC4.2 4 (firstFuncChunkQ sEmpty.db 4)) ∧
    ∀ c ∈ (createStage oC4 qC4.2 4 (firstFuncChunkQ sEmpty.db 4)).2.trace,
      c ∈ sEmpty.trace ∨ c.isRemove = false :=
  C4_recovery_failure_skips_detach oC4 1 sEmpty 4 qC4 (by decide) (by decide)

/-! C7 and C8: the destructive path of `_convert_address_to_function`. -/

theorem convert_eq_prelude (o : Oracle) (fuel : Nat) (s : S) (a : Nat) :
    convert_address_to_function o fuel s a =
      (preludeState o fuel s a).map
        (fun s3 => createStage o s3 a (firstFuncChunkQ s.db a)) := by
  unfold convert_address_to_function preludeState
  dsimp only
  split
  · rw [Option.map_map]
    rfl
  · rfl

def dsSnapState (o : Oracle) (s3 : S) (a orig : Nat) : S :=
  (list_chunksC (add_funcC o s3 a).2 orig).2

def dsSnap (o : Oracle) (s3 : S) (a orig : Nat) : List (Nat × Nat) :=
  (list_chunksC (add_funcC o s3 a).2 orig).1

def dsAfterDel (o : Oracle) (s3 : S) (a orig : Nat) : S :=
  (del_funcC o (dsSnapState o s3 a orig) orig).2

def dsAfterAdd2 (o : Oracle) (s3 : S) (a orig : Nat) : S :=
  (add_funcC o (dsAfterDel o s3 a orig) a).2

def dsAfterAdd3 (o : Oracle) (s3 : S) (a orig : Nat) : S :=
  (add_funcC o (dsAfterAdd2 o s3 a orig) orig).2

/-- C7: on the destructive path (first creation failed, an original first
chunk exists), if deleting the original succeeds, creating at `addr`
succeeds, recreating the original succeeds and the snapshot-ownership
verification passes, then `_convert_address_to_function` returns success. -/
theorem C7_destructive_full_success (o : Oracle) (fuel : Nat) (s : S) (a : Nat)
    (s3 : S) (hpre : preludeState o fuel s a = some s3)
    (horig : firstFuncChunkQ s.db a ≠ BADADDR)
    (h1 : (add_funcC o s3 a).1 = false)
    (h2 : (del_funcC o (dsSnapState o s3 a (firstFuncChunkQ s.db a))
      (firstFuncChunkQ s.db a)).1 = true)
    (h3 : (add_funcC o (dsAfterDel o s3 a (firstFuncChunkQ s.db a)) a).1 = true)
    (h4 : (add_funcC o (dsAfterAdd2 o s3 a (firstFuncChunkQ s.db a))
      (firstFuncChunkQ s.db a)).1 = true)
    (h5 : (verifyChunks (dsAfterAdd3 o s3 a (firstFuncChunkQ s.db a))
      (dsSnap o s3 a (firstFuncChunkQ s.db a))).1 = true) :
    convert_address_to_function o fuel s a = some (true,
      (verifyChunks (dsAfterAdd3 o s3 a (firstFuncChunkQ s.db a))
        (dsSnap o s3 a (firstFuncChunkQ s.db a))).2) := by
  rw [convert_eq_prelude, hpre]
  simp only [dsAfterAdd3, dsAfterAdd2, dsAfterDel, dsSnapState, dsSnap] at h2 h3 h4 h5 ⊢
  simp only [Option.map_some']
  unfold createStage destructiveStage
  dsimp only
  rw [if_neg (by simp [h1])]
  rw [if_pos horig]
  rw [if_pos h2, if_pos h3, if_pos h4, if_pos h5]

def dsRollbackEntry (o : Oracle) (s3 : S) (a orig : Nat) : S :=
  if (add_funcC o (dsAfterDel o s3 a orig) a).1 = false then dsAfterAdd2 o s3 a orig
  else if (add_funcC o (dsAfterAdd2 o s3 a orig) orig).1 = false then
    dsAfterAdd3 o s3 a orig
  else (verifyChunks (dsAfterAdd3 o s3 a orig) (dsSnap o s3 a orig)).2

/-- C8: on destructive-path failure (creation at `addr` after the delete
fails, or recreating the original fails, or verification fails), rollback
issues a `del_func` for every chunk-start in the snapshot (whatever the
outcome of each), then a best-effort `add_func` at the original address,
and the call returns failure regardless of the rollback outcome. -/
theorem C8_rollback_and_restore_on_failure (o : Oracle) (fuel : Nat) (s : S)
    (a : Nat) (s3 : S) (hpre : preludeState o fuel s a = some s3)
    (horig : firstFuncChunkQ s.db a ≠ BADADDR)
    (h1 : (add_funcC o s3 a).1 = false)
    (h2 : (del_funcC o (dsSnapState o s3 a (firstFuncChunkQ s.db a))
      (firstFuncChunkQ s.db a)).1 = true)
    (hfail : ¬((add_funcC o (dsAfterDel o s3 a (firstFuncChunkQ s.db a)) a).1 = true ∧
      (add_funcC o (dsAfterAdd2 o s3 a (firstFuncChunkQ s.db a))
        (firstFuncChunkQ s.db a)).1 = true ∧
      (verifyChunks (dsAfterAdd3 o s3 a (firstFuncChunkQ s.db a))
        (dsSnap o s3 a (firstFuncChunkQ s.db a))).1 = true)) :
    convert_address_to_function o fuel s a = some (false,
      restoreOrig o (rollbackDels o
        ((dsSnap o s3 a (firstFuncChunkQ s.db a)).map Prod.fst)
        (dsRollbackEntry o s3 a (firstFuncChunkQ s.db a)))
      (firstFuncChunkQ s.db a)) := by
  rw [convert_eq_prelude, hpre]
  simp only [dsRollbackEntry, dsAfterAdd3, dsAfterAdd2, dsAfterDel, dsSnapState,
    dsSnap] at h2 hfail ⊢
  simp only [Option.map_some']
  unfold createStage destructiveStage
  dsimp only
  rw [if_neg (by simp [h1])]
  rw [if_pos horig]
  rw [if_pos h2]
  by_cases ha2 : (add_funcC o (del_funcC o
      (list_chunksC (add_funcC o s3 a).2 (firstFuncChunkQ s.db a)).2
      (firstFuncChunkQ s.db a)).2 a).1 = true
  · rw [if_pos ha2]
    rw [if_neg (show ¬(add_funcC o (del_funcC o
      (list_chunksC (add_funcC o s3 a).2 (firstFuncChunkQ s.db a)).2
      (firstFuncChunkQ s.db a)).2 a).1 = false by simp [ha2])]
    by_cases ha3 : (add_funcC o (add_funcC o (del_funcC o
        (list_chunksC (add_funcC o s3 a).2 (firstFuncChunkQ s.db a)).2
        (firstFuncChunkQ s.db a)).2 a).2 (firstFuncChunkQ s.db a)).1 = true
    · rw [if_pos ha3]
      rw [if_neg (show ¬(add_funcC o (add_funcC o (del_funcC o
        (list_chunksC (add_funcC o s3 a).2 (firstFuncChunkQ s.db a)).2
        (firstFuncChunkQ s.db a)).2 a).2 (firstFuncChunkQ s.db a)).1 = false
        by simp [ha3])]
      have hv : ¬(verifyChunks (add_funcC o (add_funcC o (del_funcC o
          (list_chunksC (add_funcC o s3 a).2 (firstFuncChunkQ s.db a)).2
          (firstFuncChunkQ s.db a)).2 a).2 (firstFuncChunkQ s.db a)).2
          (list_chunksC (add_funcC o s3 a).2 (firstFuncChunkQ s.db a)).1).1 = true :=
        fun hv' => hfail ⟨ha2, ha3, hv'⟩
      rw [if_neg hv]
    · rw [if_neg ha3]
      rw [Bool.not_eq_true] at ha3
      rw [if_pos ha3]
  · rw [if_neg ha2]
    rw [Bool.not_eq_true] at ha2
    rw [if_pos ha2]

def oC7 : Oracle :=
  ⟨fun _ _ => 110, fun _ _ => 0, fun _ _ => 0, fun _ _ => false, fun _ _ => false,
   fun t _ => t == 6 || t == 7, fun _ _ => 0, fun _ _ => [], fun t _ => t == 5⟩

def oC8 : Oracle :=
  ⟨fun _ _ => 110, fun _ _ => 0, fun _ _ => 0, fun _ _ => false, fun _ _ => false,
   fun _ _ => false, fun _ _ => 0, fun _ _ => [], fun t _ => t == 5⟩

def s3G : S := ⟨dbG, 3,
  [Call.remove_fchunk 104 104, Call.find_func_end 104, Call.first_func_chunk 104]⟩

/-- Witness for C7 at a concrete full-success destructive run. -/
theorem C7_destructive_full_success_witness :
    convert_address_to_function oC7 1 sG 104 = some (true,
      (verifyChunks (dsAfterAdd3 oC7 s3G 104 (firstFuncChunkQ sG.db 104))
        (dsSnap oC7 s3G 104 (firstFuncChunkQ sG.db 104))).2) :=
  C7_destructive_full_success oC7 1 sG 104 s3G (by decide) (by decide) (by decide)
    (by decide) (by decide) (by decide) (by decide)

/-- Witness for C8 at a concrete destructive-failure run. -/
theorem C8_rollback_and_restore_on_failure_witness :
    convert_address_to_function oC8 1 sG 104 = some (false,
      restoreOrig oC8 (rollbackDels oC8
        ((dsSnap oC8 s3G 104 (firstFuncChunkQ sG.db 104)).map Prod.fst)
        (dsRollbackEntry oC8 s3G 104 (firstFuncChunkQ sG.db 104)))
      (firstFuncChunkQ sG.db 104)) :=
  C8_rollback_and_restore_on_failure oC8 1 sG 104 s3G (by decide) (by decide)
    (by decide) (by decide) (by decide)
